import Mathlib

/-!
# plipbox parameter store (`avr/src/param.c`)

A shallow embedding of the EEPROM-backed parameter block of plipbox:
`calc_crc16`, `param_save`, `param_load`, `param_reset` and `param_init`,
together with the compiled-in `default_param`.

Conventions of the embedding

* `u08` and `u16` values are stored as `Fin 256` and `Fin 65536`; arithmetic
  is done on `Nat` and truncated explicitly (`to_u16`).
* A record in memory (RAM, EEPROM or flash) is its byte image
  `Fin sizeof_param_t → u08`; the C functions only ever touch the record
  through `u08 *` pointers or whole-block copies.
* The three globals `param`, `eeprom_param` and `eeprom_crc16` form the
  `State`; what `eeprom_is_ready()` reports is an input of each call, since it
  is a hardware status sampled when the call is made.
* The two `for` loops are modelled with their C counters (`u16 i`, `u08 i`,
  incremented modulo the counter width) and a fuel argument that bounds the
  number of loop-condition tests; `none` means the fuel ran out.
-/

namespace Plipbox

/-! ## Machine types -/

/-- The C type `u08` (`uint8_t`). -/
abbrev u08 := Fin 256

/-- The C type `u16` (`uint16_t`). -/
abbrev u16 := Fin 65536

/-- Conversion of an arithmetic result to `uint16_t`. -/
def to_u16 (x : Nat) : u16 := ⟨x % 65536, Nat.mod_lt x (by decide)⟩

/-! ## The record type -/

/-- Modelled from the spec: `param.h`, which declares `param_t`, is not part of
the sources at hand. The fields are the ones named by the initialiser of
`default_param` and read by `param_dump`, in that order: a six byte address,
twelve `u08` flags (printed with `dump_byte`) and two `u16` test words (printed
with `dump_word`). -/
structure param_t where
  mac_addr : Fin 6 → u08
  dump_dirs : u08
  dump_eth : u08
  dump_ip : u08
  dump_arp : u08
  dump_proto : u08
  dump_plip : u08
  filter_plip : u08
  filter_eth : u08
  flow_ctl : u08
  full_duplex : u08
  loop_back : u08
  log_all : u08
  test_plen : u16
  test_ptype : u16
deriving DecidableEq

/-- Modelled from the spec: `sizeof(param_t)` for the layout above on the AVR
(byte alignment, no padding): 6 + 12 + 2 * 2 bytes. -/
@[reducible] def sizeof_param_t : Nat := 22

/-- Low byte of a 16-bit word. -/
def lo8 (w : u16) : u08 := ⟨w.val % 256, Nat.mod_lt w.val (by decide)⟩

/-- High byte of a 16-bit word. -/
def hi8 (w : u16) : u08 :=
  ⟨w.val / 256, Nat.div_lt_of_lt_mul (by have h := w.isLt; omega)⟩

/-- The 16-bit word with the given low and high byte. -/
def mk16 (l h : u08) : u16 :=
  ⟨l.val + 256 * h.val, by have h1 := l.isLt; have h2 := h.isLt; omega⟩

/-- Modelled from the spec: the byte image of a record, fields in declaration
order, 16-bit words little-endian as on the AVR. This is what a `u08 *` cast
of a `param_t *` walks over. -/
def param_t.toBytes (p : param_t) : Fin sizeof_param_t → u08 :=
  ![p.mac_addr 0, p.mac_addr 1, p.mac_addr 2, p.mac_addr 3, p.mac_addr 4, p.mac_addr 5,
    p.dump_dirs, p.dump_eth, p.dump_ip, p.dump_arp, p.dump_proto, p.dump_plip,
    p.filter_plip, p.filter_eth, p.flow_ctl, p.full_duplex, p.loop_back,
    p.log_all,
    lo8 p.test_plen, hi8 p.test_plen, lo8 p.test_ptype, hi8 p.test_ptype]

/-- Modelled from the spec: the field view of a byte image, inverse of
`param_t.toBytes`; this is how `param.mac_addr`, `param.flow_ctl`, ... read the
working record. -/
def param_t.ofBytes (b : Fin sizeof_param_t → u08) : param_t where
  mac_addr := ![b 0, b 1, b 2, b 3, b 4, b 5]
  dump_dirs := b 6
  dump_eth := b 7
  dump_ip := b 8
  dump_arp := b 9
  dump_proto := b 10
  dump_plip := b 11
  filter_plip := b 12
  filter_eth := b 13
  flow_ctl := b 14
  full_duplex := b 15
  loop_back := b 16
  log_all := b 17
  test_plen := mk16 (b 18) (b 19)
  test_ptype := mk16 (b 20) (b 21)

/-- The compiled-in default record, `static const param_t PROGMEM default_param`. -/
def default_param : param_t where
  mac_addr := ![0x1a, 0x11, 0xaf, 0xa0, 0x47, 0x11]
  dump_dirs := 0
  dump_eth := 0
  dump_ip := 0
  dump_arp := 0
  dump_proto := 0
  dump_plip := 0
  filter_plip := 1
  filter_eth := 1
  flow_ctl := 1
  full_duplex := 0
  loop_back := 0
  log_all := 0
  test_plen := 1514
  test_ptype := 0xfffd

/-! ## Result codes and state -/

/-- Modelled from the spec: the result codes of `param.h` (`PARAM_OK`,
`PARAM_EEPROM_NOT_READY`, `PARAM_EEPROM_CRC_MISMATCH`), three distinct values
of the `u08` returned by `param_save` and `param_load`. -/
inductive param_result where
  | PARAM_OK
  | PARAM_EEPROM_NOT_READY
  | PARAM_EEPROM_CRC_MISMATCH
deriving DecidableEq, Repr

/-- The three globals of `param.c`: the working record `param` in RAM, and the
record slot `eeprom_param` and checksum slot `eeprom_crc16` in EEPROM. -/
structure State where
  param : Fin sizeof_param_t → u08
  eeprom_param : Fin sizeof_param_t → u08
  eeprom_crc16 : u16

/-! ## Memory primitives (avr-libc) -/

/-- Reading the byte at offset `k` of an `n` byte object through a `u08 *`
(`*data`, `pgm_read_byte_near(in)`). An offset outside the object, which no
loop below reaches when it terminates, reads as `0`. -/
def read_byte {n : Nat} (mem : Fin n → u08) (k : Nat) : u08 :=
  if h : k < n then mem ⟨k, h⟩ else 0

/-- Writing the byte at offset `k` of an `n` byte object through a `u08 *`
(`*out = v`). An offset outside the object leaves the object as it is. -/
def write_byte {n : Nat} (mem : Fin n → u08) (k : Nat) (v : u08) : Fin n → u08 :=
  if h : k < n then Function.update mem ⟨k, h⟩ v else mem

/-- The avr-libc call `eeprom_write_block(src, dst, sizeof(param_t))`: the new
contents of the destination block. -/
def eeprom_write_block (src : Fin sizeof_param_t → u08) : Fin sizeof_param_t → u08 :=
  fun i => src i

/-- The avr-libc call `eeprom_read_block(dst, src, sizeof(param_t))`: the new
contents of the destination block. -/
def eeprom_read_block (src : Fin sizeof_param_t → u08) : Fin sizeof_param_t → u08 :=
  fun i => src i

/-- The avr-libc call `eeprom_write_word(&eeprom_crc16, value)`: the new
contents of the word slot. -/
def eeprom_write_word (value : u16) : u16 := value

/-- The avr-libc call `eeprom_read_word(&eeprom_crc16)`: the value read from a
word slot with the given contents. -/
def eeprom_read_word (slot : u16) : u16 := slot

/-! ## Checksum -/

/-- One pass of the bit loop of avr-libc's `_crc16_update`:
`if (crc & 1) crc = (crc >> 1) ^ 0xA001; else crc = (crc >> 1);`. -/
def crc16_shift (crc : Nat) : Nat :=
  if crc &&& 1 ≠ 0 then (crc >>> 1) ^^^ 0xA001 else crc >>> 1

/-- The bit loop `for (i = 0; i < 8; ++i)` of `_crc16_update`, by the number of
passes left. -/
def crc16_bits : Nat → Nat → Nat
  | 0, crc => crc
  | k + 1, crc => crc16_bits k (crc16_shift crc)

/-- The avr-libc function `_crc16_update(crc, a)` of `<util/crc16.h>`, after
the C equivalent given in its documentation: `crc ^= a;` followed by the bit
loop. -/
def _crc16_update (crc : u16) (a : u08) : u16 :=
  to_u16 (crc16_bits 8 (crc.val ^^^ a.val))

/-- The loop of `calc_crc16` over an `n` byte record:
`for(u16 i=0;i<n;i++) { crc16 = _crc16_update(crc16,*data); data++; }`.
The arguments are the fuel, the counter `i`, the offset of `data` from the
start of the record, and `crc16`. -/
def calc_crc16_loop (n : Nat) (p : Fin n → u08) : Nat → Nat → Nat → u16 → Option u16
  | 0, _, _, _ => none
  | fuel + 1, i, data, crc16 =>
    if i < n then
      calc_crc16_loop n p fuel ((i + 1) % 65536) (data + 1)
        (_crc16_update crc16 (read_byte p data))
    else some crc16

/-- The function `calc_crc16(param_t *p)`. The fuel is the number of values of
the `u16` counter. -/
def calc_crc16 (p : Fin sizeof_param_t → u08) : Option u16 :=
  calc_crc16_loop sizeof_param_t p 65536 0 0 0xffff

/-! ## The four operations -/

/-- The loop of `param_reset` for an `n` byte record with flash image `inp`:
`for(u08 i=0;i<n;i++) { *(out++) = pgm_read_byte_near(in++); }`.
The arguments are the fuel, the counter `i`, the offsets of `out` and of `in`
from the start of their records, and the bytes of the working record. -/
def param_reset_loop (n : Nat) (inp : Fin n → u08) :
    Nat → Nat → Nat → Nat → (Fin n → u08) → Option (Fin n → u08)
  | 0, _, _, _, _ => none
  | fuel + 1, i, out, in_, mem =>
    if i < n then
      param_reset_loop n inp fuel ((i + 1) % 256) (out + 1) (in_ + 1)
        (write_byte mem out (read_byte inp in_))
    else some mem

/-- The function `param_reset()`. The fuel is the number of values of the
`u08` counter. -/
def param_reset (s : State) : Option State :=
  match param_reset_loop sizeof_param_t default_param.toBytes 256 0 0 0 s.param with
  | none => none
  | some mem => some { s with param := mem }

/-- The function `param_save()`; `eeprom_is_ready` is what the call of
`eeprom_is_ready()` reports. -/
def param_save (eeprom_is_ready : Bool) (s : State) : Option (param_result × State) :=
  if !eeprom_is_ready then
    some (param_result.PARAM_EEPROM_NOT_READY, s)
  else
    let s1 : State := { s with eeprom_param := eeprom_write_block s.param }
    match calc_crc16 s1.param with
    | none => none
    | some crc16 =>
      some (param_result.PARAM_OK, { s1 with eeprom_crc16 := eeprom_write_word crc16 })

/-- The function `param_load()`; `eeprom_is_ready` is what the call of
`eeprom_is_ready()` reports. -/
def param_load (eeprom_is_ready : Bool) (s : State) : Option (param_result × State) :=
  if !eeprom_is_ready then
    some (param_result.PARAM_EEPROM_NOT_READY, s)
  else
    let s1 : State := { s with param := eeprom_read_block s.eeprom_param }
    let crc16 : u16 := eeprom_read_word s1.eeprom_crc16
    match calc_crc16 s1.param with
    | none => none
    | some my_crc16 =>
      if crc16 ≠ my_crc16 then
        match param_reset s1 with
        | none => none
        | some s2 => some (param_result.PARAM_EEPROM_CRC_MISMATCH, s2)
      else some (param_result.PARAM_OK, s1)

/-- The function `param_init()`; `eeprom_is_ready` is what the one call of
`eeprom_is_ready()`, made inside `param_load`, reports. -/
def param_init (eeprom_is_ready : Bool) (s : State) : Option State :=
  match param_load eeprom_is_ready s with
  | none => none
  | some (r, s1) => if r ≠ param_result.PARAM_OK then param_reset s1 else some s1

/-- Calling `param_reset()` the given number of times in a row. -/
def param_reset_times : Nat → State → Option State
  | 0, s => some s
  | k + 1, s =>
    match param_reset s with
    | none => none
    | some s1 => param_reset_times k s1

/-- A sample state: working record all zero, record slot holding the image of
`default_param`, checksum slot `0`. -/
def sample_corrupt : State where
  param := fun _ => 0
  eeprom_param := default_param.toBytes
  eeprom_crc16 := 0

/-- The loop of `param_reset` once more, also recording the offsets written
through `out`, in the order of the writes. -/
def param_reset_loop_log (n : Nat) (inp : Fin n → u08) :
    Nat → Nat → Nat → Nat → (Fin n → u08) → List Nat → Option ((Fin n → u08) × List Nat)
  | 0, _, _, _, _, _ => none
  | fuel + 1, i, out, in_, mem, log =>
    if i < n then
      param_reset_loop_log n inp fuel ((i + 1) % 256) (out + 1) (in_ + 1)
        (write_byte mem out (read_byte inp in_)) (log ++ [out])
    else some (mem, log)

/-- A sample record: `default_param` with the address `19:51:ae:a0:47:11`. -/
def sample_mac_changed : param_t :=
  { default_param with mac_addr := ![0x19, 0x51, 0xae, 0xa0, 0x47, 0x11] }

/-- A sample record: `default_param` with `flow_ctl` switched off. -/
def sample_flow_off : param_t :=
  { default_param with flow_ctl := 0 }

/-- The erased EEPROM block: every byte `0xFF`. -/
def erased_block : Fin sizeof_param_t → u08 := fun _ => 0xff

/-! ## The checksum in the words of the specification -/

/-- The bit step as the specification words it: shift right by one, and xor
`0xA001` in if the bit shifted out was 1. -/
def crc16_spec_bit (acc : Nat) : Nat :=
  if acc % 2 = 1 then (acc / 2) ^^^ 0xA001 else acc / 2

/-- The byte step as the specification words it: xor the byte into the
accumulator, then eight bit steps. -/
def crc16_spec_update (acc byte : Nat) : Nat :=
  Nat.iterate crc16_spec_bit 8 (acc ^^^ byte)

/-- The reference checksum of a byte sequence: the left fold of the byte step
from the initial value `0xFFFF`. -/
def crc16_spec (bytes : List Nat) : Nat :=
  bytes.foldl crc16_spec_update 0xFFFF

/-! ## Loop lemmas -/

theorem drop_ofFn_cons {n : Nat} (p : Fin n → u08) (i : Nat) (h : i < n) :
    (List.ofFn p).drop i = p ⟨i, h⟩ :: (List.ofFn p).drop (i + 1) := by
  have hl : i < (List.ofFn p).length := by simpa using h
  rw [List.drop_eq_getElem_cons hl]
  simp

theorem calc_crc16_loop_eq (n : Nat) (p : Fin n → u08) (hn : n < 65536) :
    ∀ (fuel i : Nat) (crc : u16), i ≤ n → n - i < fuel →
      calc_crc16_loop n p fuel i i crc
        = some (((List.ofFn p).drop i).foldl _crc16_update crc) := by
  intro fuel
  induction fuel with
  | zero => intro i crc _ hf; omega
  | succ f ih =>
    intro i crc hi hf
    unfold calc_crc16_loop
    by_cases h : i < n
    · have hw : (i + 1) % 65536 = i + 1 := Nat.mod_eq_of_lt (by omega)
      rw [if_pos h, hw, ih (i + 1) _ (by omega) (by omega), drop_ofFn_cons p i h]
      simp [read_byte, h]
    · have hin : i = n := by omega
      subst hin
      have hd : (List.ofFn p).drop i = [] := List.drop_eq_nil_of_le (by simp)
      rw [if_neg h, hd]
      rfl

theorem param_reset_loop_eq (n : Nat) (inp : Fin n → u08) (hn : n < 256) :
    ∀ (fuel i : Nat) (mem : Fin n → u08), i ≤ n → n - i < fuel →
      param_reset_loop n inp fuel i i i mem
        = some (fun j => if i ≤ j.val then inp j else mem j) := by
  intro fuel
  induction fuel with
  | zero => intro i mem _ hf; omega
  | succ f ih =>
    intro i mem hi hf
    unfold param_reset_loop
    by_cases h : i < n
    · have hw : (i + 1) % 256 = i + 1 := Nat.mod_eq_of_lt (by omega)
      rw [if_pos h, hw, ih (i + 1) _ (by omega) (by omega)]
      congr 1
      funext j
      by_cases hj : i + 1 ≤ j.val
      · have hj2 : i ≤ j.val := by omega
        simp [hj, hj2]
      · by_cases hj3 : i = j.val
        · subst hj3
          simp [write_byte, read_byte]
        · have hj4 : ¬ i ≤ j.val := by omega
          have hne : j ≠ ⟨i, h⟩ := by
            intro hc
            exact hj3 (by rw [hc])
          simp [hj, hj4, write_byte, read_byte, h, Function.update_noteq hne]
    · have hin : i = n := by omega
      subst hin
      rw [if_neg h]
      congr 1
      funext j
      have hj : ¬ i ≤ j.val := by have := j.isLt; omega
      simp [hj]

/-- The checksum loop of `calc_crc16` terminates, with the fold of
`_crc16_update` over the bytes of the record in increasing address order. -/
theorem calc_crc16_eq (p : Fin sizeof_param_t → u08) :
    calc_crc16 p = some ((List.ofFn p).foldl _crc16_update 0xffff) := by
  unfold calc_crc16
  rw [calc_crc16_loop_eq sizeof_param_t p (by decide) 65536 0 0xffff (by decide) (by decide)]
  simp

/-- The copy loop of `param_reset` terminates, with the image of
`default_param` in the working record and the EEPROM as it was. -/
theorem param_reset_eq (s : State) :
    param_reset s = some { s with param := default_param.toBytes } := by
  unfold param_reset
  rw [param_reset_loop_eq sizeof_param_t default_param.toBytes (by decide) 256 0 s.param
    (by decide) (by decide)]
  simp

theorem param_reset_loop_log_fst (n : Nat) (inp : Fin n → u08) :
    ∀ (fuel i out in_ : Nat) (mem : Fin n → u08) (log : List Nat),
      (param_reset_loop_log n inp fuel i out in_ mem log).map Prod.fst
        = param_reset_loop n inp fuel i out in_ mem := by
  intro fuel
  induction fuel with
  | zero => intro i out in_ mem log; rfl
  | succ f ih =>
    intro i out in_ mem log
    unfold param_reset_loop_log param_reset_loop
    by_cases h : i < n
    · rw [if_pos h, if_pos h, ih]
    · rw [if_neg h, if_neg h]
      rfl

theorem param_reset_loop_log_eq (n : Nat) (inp : Fin n → u08) (hn : n < 256) :
    ∀ (fuel i : Nat) (mem : Fin n → u08) (log : List Nat), i ≤ n → n - i < fuel →
      param_reset_loop_log n inp fuel i i i mem log
        = some (fun j => if i ≤ j.val then inp j else mem j, log ++ List.range' i (n - i)) := by
  intro fuel
  induction fuel with
  | zero => intro i mem log _ hf; omega
  | succ f ih =>
    intro i mem log hi hf
    have hm := param_reset_loop_log_fst n inp (f + 1) i i i mem log
    rw [param_reset_loop_eq n inp hn (f + 1) i mem hi hf] at hm
    unfold param_reset_loop_log
    unfold param_reset_loop_log at hm
    by_cases h : i < n
    · have hw : (i + 1) % 256 = i + 1 := Nat.mod_eq_of_lt (by omega)
      rw [if_pos h, hw, ih (i + 1) _ _ (by omega) (by omega)] at hm
      rw [if_pos h, hw, ih (i + 1) _ _ (by omega) (by omega)]
      simp only [Option.map_some', Option.some.injEq] at hm
      have hr : n - i = (n - (i + 1)) + 1 := by omega
      rw [hr, List.range'_succ, ← hm]
      simp
    · have hin : i = n := by omega
      subst hin
      rw [if_neg h] at hm
      rw [if_neg h]
      simp only [Option.map_some', Option.some.injEq] at hm
      rw [← hm]
      simp

theorem param_reset_loop_short (n : Nat) (inp : Fin n → u08) (hn : n < 256) :
    ∀ (fuel i : Nat) (mem : Fin n → u08), i ≤ n → fuel ≤ n - i →
      param_reset_loop n inp fuel i i i mem = none := by
  intro fuel
  induction fuel with
  | zero => intro i mem _ _; rfl
  | succ f ih =>
    intro i mem hi hf
    have h : i < n := by omega
    have hw : (i + 1) % 256 = i + 1 := Nat.mod_eq_of_lt (by omega)
    unfold param_reset_loop
    rw [if_pos h, hw]
    exact ih (i + 1) _ (by omega) (by omega)

theorem param_reset_loop_never (n : Nat) (inp : Fin n → u08) (hn : 256 ≤ n) :
    ∀ (fuel i out in_ : Nat) (mem : Fin n → u08), i < 256 →
      param_reset_loop n inp fuel i out in_ mem = none := by
  intro fuel
  induction fuel with
  | zero => intro i out in_ mem _; rfl
  | succ f ih =>
    intro i out in_ mem hi
    have h : i < n := by omega
    unfold param_reset_loop
    rw [if_pos h]
    exact ih _ _ _ _ (Nat.mod_lt _ (by decide))

/-! ## Normal forms of the operations -/

theorem eeprom_write_block_eq (src : Fin sizeof_param_t → u08) :
    eeprom_write_block src = src := rfl

theorem eeprom_read_block_eq (src : Fin sizeof_param_t → u08) :
    eeprom_read_block src = src := rfl

theorem calc_crc16_isSome (p : Fin sizeof_param_t → u08) : ∃ c, calc_crc16 p = some c :=
  ⟨_, calc_crc16_eq p⟩

theorem param_save_ready (s : State) (c : u16) (hc : calc_crc16 s.param = some c) :
    param_save true s
      = some (param_result.PARAM_OK,
          { param := s.param, eeprom_param := s.param, eeprom_crc16 := c }) := by
  simp [param_save, eeprom_write_block_eq, eeprom_write_word, hc]

theorem param_load_match (s : State) (hc : calc_crc16 s.eeprom_param = some s.eeprom_crc16) :
    param_load true s = some (param_result.PARAM_OK, { s with param := s.eeprom_param }) := by
  simp [param_load, eeprom_read_block_eq, eeprom_read_word, hc]

theorem param_load_mismatch (s : State)
    (hc : calc_crc16 s.eeprom_param ≠ some s.eeprom_crc16) :
    param_load true s
      = some (param_result.PARAM_EEPROM_CRC_MISMATCH,
          { s with param := default_param.toBytes }) := by
  obtain ⟨c, hcc⟩ := calc_crc16_isSome s.eeprom_param
  have hne : ¬ s.eeprom_crc16 = c := by
    intro h
    exact hc (by rw [hcc, h])
  simp [param_load, eeprom_read_block_eq, eeprom_read_word, hcc, hne, param_reset_eq]

theorem param_load_not_ready (s : State) :
    param_load false s = some (param_result.PARAM_EEPROM_NOT_READY, s) := by
  simp [param_load]

theorem param_load_total (ready : Bool) (s : State) :
    ∃ r s1, param_load ready s = some (r, s1) := by
  cases ready
  · exact ⟨_, _, param_load_not_ready s⟩
  · by_cases hc : calc_crc16 s.eeprom_param = some s.eeprom_crc16
    · exact ⟨_, _, param_load_match s hc⟩
    · exact ⟨_, _, param_load_mismatch s hc⟩

theorem mk16_lo8_hi8 (w : u16) : mk16 (lo8 w) (hi8 w) = w := by
  apply Fin.ext
  simp only [mk16, lo8, hi8]
  omega

theorem ofBytes_toBytes (p : param_t) : param_t.ofBytes p.toBytes = p := by
  cases p with
  | mk mac_addr dump_dirs dump_eth dump_ip dump_arp dump_proto dump_plip filter_plip
      filter_eth flow_ctl full_duplex loop_back log_all test_plen test_ptype =>
    have hmac : ![mac_addr 0, mac_addr 1, mac_addr 2, mac_addr 3, mac_addr 4, mac_addr 5]
        = mac_addr := by
      funext i
      fin_cases i <;> rfl
    have h1 := mk16_lo8_hi8 test_plen
    have h2 := mk16_lo8_hi8 test_ptype
    unfold param_t.ofBytes param_t.toBytes
    congr 1

theorem param_reset_times_succ (k : Nat) (s : State) :
    param_reset_times (k + 1) s = param_reset s := by
  induction k generalizing s with
  | zero => simp [param_reset_times, param_reset_eq]
  | succ k ih =>
    have h := ih { s with param := default_param.toBytes }
    rw [param_reset_eq] at h
    rw [param_reset_times, param_reset_eq]
    simp only
    rw [h]

/-! ## The checksum against its reference definition -/

theorem crc16_shift_eq_spec (x : Nat) : crc16_shift x = crc16_spec_bit x := by
  unfold crc16_shift crc16_spec_bit
  rw [Nat.and_one_is_mod, Nat.shiftRight_eq_div_pow]
  by_cases h : x % 2 = 1
  · have h0 : x % 2 ≠ 0 := by omega
    simp [h, h0]
  · have h0 : x % 2 = 0 := by omega
    simp [h, h0]

theorem crc16_bits_eq_iterate (k x : Nat) :
    crc16_bits k x = Nat.iterate crc16_spec_bit k x := by
  induction k generalizing x with
  | zero => rfl
  | succ k ih => rw [crc16_bits, ih, crc16_shift_eq_spec, Function.iterate_succ_apply]

theorem crc16_spec_bit_lt (x : Nat) (h : x < 65536) : crc16_spec_bit x < 65536 := by
  unfold crc16_spec_bit
  have h2 : x / 2 < 2 ^ 16 := by omega
  split
  · exact Nat.xor_lt_two_pow h2 (by decide)
  · exact h2

theorem crc16_spec_iterate_lt (k x : Nat) (h : x < 65536) :
    Nat.iterate crc16_spec_bit k x < 65536 := by
  induction k generalizing x with
  | zero => exact h
  | succ k ih =>
    rw [Function.iterate_succ_apply]
    exact ih _ (crc16_spec_bit_lt x h)

theorem crc16_update_val (crc : u16) (a : u08) :
    (_crc16_update crc a).val = crc16_spec_update crc.val a.val := by
  have hx : crc.val ^^^ a.val < 2 ^ 16 :=
    Nat.xor_lt_two_pow crc.isLt (by have := a.isLt; omega)
  unfold _crc16_update crc16_spec_update to_u16
  rw [crc16_bits_eq_iterate]
  exact Nat.mod_eq_of_lt (crc16_spec_iterate_lt 8 _ hx)

theorem crc16_foldl_val (l : List u08) (crc : u16) :
    (l.foldl _crc16_update crc).val
      = (l.map Fin.val).foldl crc16_spec_update crc.val := by
  induction l generalizing crc with
  | nil => rfl
  | cons a l ih => simp only [List.foldl_cons, List.map_cons, ih, crc16_update_val]

theorem param_init_ready_match (s : State)
    (hc : calc_crc16 s.eeprom_param = some s.eeprom_crc16) :
    param_init true s = some { s with param := s.eeprom_param } := by
  simp [param_init, param_load_match s hc]

theorem param_init_ready_mismatch (s : State)
    (hc : calc_crc16 s.eeprom_param ≠ some s.eeprom_crc16) :
    param_init true s = some { s with param := default_param.toBytes } := by
  simp [param_init, param_load_mismatch s hc, param_reset_eq]

theorem param_init_false (s : State) :
    param_init false s = some { s with param := default_param.toBytes } := by
  simp [param_init, param_load_not_ready, param_reset_eq]

/-! ## Injectivity of the checksum steps -/

theorem xor_A001_ge (a : Nat) (h : a < 2 ^ 15) : 2 ^ 15 ≤ a ^^^ 0xA001 := by
  by_contra hlt
  have h1 : a ^^^ 0xA001 < 2 ^ 15 := by omega
  have h2 : (a ^^^ 0xA001) ^^^ a < 2 ^ 15 := Nat.xor_lt_two_pow h1 h
  have h3 : (a ^^^ 0xA001) ^^^ a = 0xA001 := by
    rw [Nat.xor_comm a, Nat.xor_cancel_right]
  rw [h3] at h2
  omega

theorem crc16_spec_bit_inj (x y : Nat) (hx : x < 65536) (hy : y < 65536)
    (h : crc16_spec_bit x = crc16_spec_bit y) : x = y := by
  have hx2 : x / 2 < 2 ^ 15 := by omega
  have hy2 : y / 2 < 2 ^ 15 := by omega
  have gx := xor_A001_ge (x / 2) hx2
  have gy := xor_A001_ge (y / 2) hy2
  unfold crc16_spec_bit at h
  by_cases ox : x % 2 = 1 <;> by_cases oy : y % 2 = 1
  · rw [if_pos ox, if_pos oy] at h
    have h2 : x / 2 = y / 2 := Nat.xor_left_inj.mp h
    omega
  · rw [if_pos ox, if_neg oy] at h
    omega
  · rw [if_neg ox, if_pos oy] at h
    omega
  · rw [if_neg ox, if_neg oy] at h
    omega

theorem crc16_spec_iterate_inj (k x y : Nat) (hx : x < 65536) (hy : y < 65536)
    (h : Nat.iterate crc16_spec_bit k x = Nat.iterate crc16_spec_bit k y) : x = y := by
  induction k generalizing x y with
  | zero => exact h
  | succ k ih =>
    rw [Function.iterate_succ_apply, Function.iterate_succ_apply] at h
    exact crc16_spec_bit_inj x y hx hy
      (ih _ _ (crc16_spec_bit_lt x hx) (crc16_spec_bit_lt y hy) h)

theorem xor_byte_lt (crc : u16) (a : u08) : crc.val ^^^ a.val < 65536 := by
  have h : crc.val ^^^ a.val < 2 ^ 16 :=
    Nat.xor_lt_two_pow crc.isLt (by have := a.isLt; omega)
  omega

theorem crc16_update_inj_crc (c1 c2 : u16) (a : u08)
    (h : _crc16_update c1 a = _crc16_update c2 a) : c1 = c2 := by
  have hv := congrArg Fin.val h
  rw [crc16_update_val, crc16_update_val] at hv
  unfold crc16_spec_update at hv
  have hx := crc16_spec_iterate_inj 8 _ _ (xor_byte_lt c1 a) (xor_byte_lt c2 a) hv
  exact Fin.ext (Nat.xor_left_inj.mp hx)

theorem crc16_update_inj_byte (c : u16) (a1 a2 : u08)
    (h : _crc16_update c a1 = _crc16_update c a2) : a1 = a2 := by
  have hv := congrArg Fin.val h
  rw [crc16_update_val, crc16_update_val] at hv
  unfold crc16_spec_update at hv
  have hx := crc16_spec_iterate_inj 8 _ _ (xor_byte_lt c a1) (xor_byte_lt c a2) hv
  exact Fin.ext (Nat.xor_right_inj.mp hx)

theorem crc16_foldl_inj (l : List u08) (c1 c2 : u16)
    (h : l.foldl _crc16_update c1 = l.foldl _crc16_update c2) : c1 = c2 := by
  induction l generalizing c1 c2 with
  | nil => exact h
  | cons a l ih => exact crc16_update_inj_crc c1 c2 a (ih _ _ h)

theorem crc16_foldl_one_byte (n : Nat) (p q : Fin n → u08) (k : Fin n) (crc : u16)
    (hk : p k ≠ q k) (hrest : ∀ j : Fin n, j ≠ k → p j = q j) :
    (List.ofFn p).foldl _crc16_update crc ≠ (List.ofFn q).foldl _crc16_update crc := by
  induction n generalizing crc with
  | zero => exact k.elim0
  | succ n ih =>
    rw [List.ofFn_succ, List.ofFn_succ, List.foldl_cons, List.foldl_cons]
    by_cases hk0 : k = 0
    · subst hk0
      have htail : (fun i : Fin n => p i.succ) = fun i : Fin n => q i.succ := by
        funext i
        exact hrest i.succ (Fin.succ_ne_zero i)
      rw [htail]
      intro h
      exact hk (crc16_update_inj_byte crc _ _ (crc16_foldl_inj _ _ _ h))
    · obtain ⟨k1, hk1⟩ := Fin.exists_succ_eq.mpr hk0
      subst hk1
      have h0 : p 0 = q 0 := hrest 0 (fun h => hk0 h.symm)
      rw [h0]
      refine ih (fun i => p i.succ) (fun i => q i.succ) k1 _ hk ?_
      intro j hj
      exact hrest j.succ (fun h => hj (Fin.succ_injective n h))

/-! ## The claims -/

/-- C1, round trip: on a medium that reports ready at both calls, `param_save()`
returns `PARAM_OK` without changing the working record, and a following
`param_load()` returns `PARAM_OK` and restores the saved working record
byte for byte, whatever the medium held before the save and whatever bytes
`w` the working record was overwritten with in between. -/
theorem param_save_load_round_trip (s : State) (w : Fin sizeof_param_t → u08) :
    ∃ s1 : State,
      param_save true s = some (param_result.PARAM_OK, s1) ∧
      s1.param = s.param ∧
      param_load true { s1 with param := w }
        = some (param_result.PARAM_OK, { s1 with param := s.param }) := by
  obtain ⟨c, hc⟩ := calc_crc16_isSome s.param
  refine ⟨_, param_save_ready s c hc, rfl, ?_⟩
  exact param_load_match _ hc

/-- C2, corruption recovery: on a ready medium whose checksum slot differs from
`calc_crc16` of the bytes in its record slot, `param_load()` returns
`PARAM_EEPROM_CRC_MISMATCH` and the working record afterwards is the image of
`default_param`, whatever it was before; the medium is as it was. -/
theorem param_load_crc_mismatch (s : State)
    (hc : calc_crc16 s.eeprom_param ≠ some s.eeprom_crc16) :
    param_load true s
      = some (param_result.PARAM_EEPROM_CRC_MISMATCH,
          { s with param := default_param.toBytes }) :=
  param_load_mismatch s hc

set_option maxRecDepth 100000 in
/-- C2 at a sample medium: the record slot holds the image of `default_param`,
whose checksum is not the `0` held by the checksum slot. -/
theorem param_load_crc_mismatch_witness :
    calc_crc16 sample_corrupt.eeprom_param ≠ some sample_corrupt.eeprom_crc16 ∧
    param_load true sample_corrupt
      = some (param_result.PARAM_EEPROM_CRC_MISMATCH,
          { sample_corrupt with param := default_param.toBytes }) :=
  ⟨by decide, param_load_crc_mismatch sample_corrupt (by decide)⟩

/-- C3, init totality: for every medium state, ready or not, and every prior
working record, `param_init()` returns, and the working record afterwards is
either the record slot of the medium, whose stored checksum is then
`calc_crc16` of those bytes, or the image of `default_param`. -/
theorem param_init_total (ready : Bool) (s : State) :
    ∃ s1 : State,
      param_init ready s = some s1 ∧
      ((s1.param = s.eeprom_param ∧ calc_crc16 s.eeprom_param = some s.eeprom_crc16)
        ∨ s1.param = default_param.toBytes) := by
  cases ready
  · refine ⟨{ s with param := default_param.toBytes }, ?_, Or.inr rfl⟩
    simp [param_init, param_load_not_ready, param_reset_eq]
  · by_cases hc : calc_crc16 s.eeprom_param = some s.eeprom_crc16
    · refine ⟨{ s with param := s.eeprom_param }, ?_, Or.inl ⟨rfl, hc⟩⟩
      simp [param_init, param_load_match s hc]
    · refine ⟨{ s with param := default_param.toBytes }, ?_, Or.inr rfl⟩
      simp [param_init, param_load_mismatch s hc, param_reset_eq]

/-- C4, load on a medium that is not ready: `param_load()` returns
`PARAM_EEPROM_NOT_READY` and leaves the working record and the medium as they
were. -/
theorem param_load_not_ready_unchanged (s : State) :
    param_load false s = some (param_result.PARAM_EEPROM_NOT_READY, s) := by
  simp [param_load]

/-- C5, save on a medium that is not ready: `param_save()` returns
`PARAM_EEPROM_NOT_READY` and leaves the record slot, the checksum slot and the
working record as they were. -/
theorem param_save_not_ready_unchanged (s : State) :
    param_save false s = some (param_result.PARAM_EEPROM_NOT_READY, s) := by
  simp [param_save]

/-- C6, save postcondition: on a ready medium `param_save()` returns `PARAM_OK`,
the record slot then holds the bytes of the working record, the checksum slot
holds `calc_crc16` of the working record, and the working record is unchanged;
and whenever `param_save()` returns `PARAM_OK` the stored checksum is
`calc_crc16` of the stored record. -/
theorem param_save_postcondition (s : State) :
    ∃ c : u16,
      calc_crc16 s.param = some c ∧
      param_save true s
        = some (param_result.PARAM_OK,
            { param := s.param, eeprom_param := s.param, eeprom_crc16 := c }) ∧
      ∀ (ready : Bool) (s1 : State),
        param_save ready s = some (param_result.PARAM_OK, s1) →
          calc_crc16 s1.eeprom_param = some s1.eeprom_crc16 := by
  obtain ⟨c, hc⟩ := calc_crc16_isSome s.param
  refine ⟨c, hc, param_save_ready s c hc, ?_⟩
  intro ready s1 h
  cases ready
  · simp [param_save] at h
  · rw [param_save_ready s c hc] at h
    simp only [Option.some.injEq, Prod.mk.injEq, true_and] at h
    rw [← h]
    exact hc

/-- C7, load acceptance: `param_load()` always returns; it returns `PARAM_OK`
exactly when the medium is ready and the stored checksum is `calc_crc16` of the
stored record, and the working record is then the bytes of the record slot (the
medium is as it was). -/
theorem param_load_ok_iff (ready : Bool) (s : State) :
    (∃ r s1, param_load ready s = some (r, s1)) ∧
    ((∃ s1, param_load ready s = some (param_result.PARAM_OK, s1))
      ↔ (ready = true ∧ calc_crc16 s.eeprom_param = some s.eeprom_crc16)) ∧
    (param_load ready s = some (param_result.PARAM_OK, { s with param := s.eeprom_param })
      ↔ (ready = true ∧ calc_crc16 s.eeprom_param = some s.eeprom_crc16)) := by
  refine ⟨param_load_total ready s, ?_, ?_⟩
  · cases ready
    · simp [param_load_not_ready]
    · by_cases hc : calc_crc16 s.eeprom_param = some s.eeprom_crc16
      · simp [param_load_match s hc, hc]
      · simp [param_load_mismatch s hc, hc]
  · cases ready
    · simp [param_load_not_ready]
    · by_cases hc : calc_crc16 s.eeprom_param = some s.eeprom_crc16
      · simp [param_load_match s hc, hc]
      · simp [param_load_mismatch s hc, hc]

/-- C8, reset idempotence: whatever the working record was, `param_reset()`
returns with the working record equal to the image of `default_param` (and the
medium as it was), and any number of calls in a row, two or more included,
gives the same state as one call. -/
theorem param_reset_idempotent (s : State) :
    param_reset s = some { s with param := default_param.toBytes } ∧
    (∀ k : Nat, param_reset_times (k + 1) s = param_reset s) ∧
    (∀ k : Nat, param_reset_times (k + 2) s
      = some { s with param := default_param.toBytes }) := by
  refine ⟨param_reset_eq s, fun k => param_reset_times_succ k s, fun k => ?_⟩
  rw [param_reset_times_succ (k + 1) s, param_reset_eq]

/-- C9, default record literal: the fields of `default_param`, and the field
view of the working record after `param_reset()`, which is `default_param`. -/
theorem default_param_literal (s : State) :
    default_param.mac_addr = ![0x1a, 0x11, 0xaf, 0xa0, 0x47, 0x11] ∧
    default_param.filter_plip = 1 ∧
    default_param.filter_eth = 1 ∧
    default_param.flow_ctl = 1 ∧
    default_param.dump_dirs = 0 ∧
    default_param.dump_eth = 0 ∧
    default_param.dump_ip = 0 ∧
    default_param.dump_arp = 0 ∧
    default_param.dump_proto = 0 ∧
    default_param.dump_plip = 0 ∧
    default_param.full_duplex = 0 ∧
    default_param.loop_back = 0 ∧
    default_param.log_all = 0 ∧
    default_param.test_plen = 1514 ∧
    default_param.test_ptype = 0xfffd ∧
    ∃ s1 : State, param_reset s = some s1 ∧ param_t.ofBytes s1.param = default_param := by
  refine ⟨rfl, rfl, rfl, rfl, rfl, rfl, rfl, rfl, rfl, rfl, rfl, rfl, rfl, rfl, rfl, ?_⟩
  exact ⟨_, param_reset_eq s, ofBytes_toBytes default_param⟩

/-- C10, checksum reference definition: `calc_crc16` returns, for every record,
the left fold of `_crc16_update` over the bytes of the record in increasing
address order from the initial value `0xFFFF`; `_crc16_update` is the byte step
of the specification (xor the byte in, then eight times shift right by one and
xor `0xA001` if the bit shifted out was 1); so the 16-bit result is the
reference checksum of the byte sequence, a function of those bytes alone. -/
theorem calc_crc16_reference (p : Fin sizeof_param_t → u08) :
    calc_crc16 p = some ((List.ofFn p).foldl _crc16_update 0xffff) ∧
    (∀ (crc : u16) (a : u08),
      (_crc16_update crc a).val = crc16_spec_update crc.val a.val) ∧
    (calc_crc16 p).map Fin.val = some (crc16_spec ((List.ofFn p).map Fin.val)) ∧
    (List.ofFn p).length = sizeof_param_t := by
  refine ⟨calc_crc16_eq p, crc16_update_val, ?_, by simp⟩
  rw [calc_crc16_eq, Option.map_some', crc16_foldl_val]
  rfl

/-- C11, single-byte sensitivity: two records that differ at exactly one byte
position `k` and agree at every other position have different checksums:
`calc_crc16` returns on both, with different values. -/
theorem calc_crc16_single_byte (p q : Fin sizeof_param_t → u08) (k : Fin sizeof_param_t)
    (hk : p k ≠ q k) (hrest : ∀ j : Fin sizeof_param_t, j ≠ k → p j = q j) :
    ∃ c d : u16, calc_crc16 p = some c ∧ calc_crc16 q = some d ∧ c ≠ d :=
  ⟨_, _, calc_crc16_eq p, calc_crc16_eq q,
    crc16_foldl_one_byte sizeof_param_t p q k 0xffff hk hrest⟩

/-- C11 at a sample pair: the image of `default_param` and the image of the
record that differs from it in `flow_ctl` alone, byte 14. -/
theorem calc_crc16_single_byte_witness :
    ∃ c d : u16, calc_crc16 default_param.toBytes = some c ∧
      calc_crc16 sample_flow_off.toBytes = some d ∧ c ≠ d :=
  calc_crc16_single_byte default_param.toBytes sample_flow_off.toBytes 14
    (by decide) (by decide)

set_option maxRecDepth 100000 in
/-- C12 fails as stated: the record with address `19:51:ae:a0:47:11` differs
from `default_param` and has the same checksum `0xc34d`, so a ready medium
holding that record next to the checksum of `default_param` is accepted:
`param_load()` returns `PARAM_OK` and the working record is the changed record,
not `default_param`. -/
theorem param_load_accepts_changed_record :
    sample_mac_changed.toBytes ≠ default_param.toBytes ∧
    calc_crc16 default_param.toBytes = some 0xc34d ∧
    param_load true
        { param := default_param.toBytes,
          eeprom_param := sample_mac_changed.toBytes,
          eeprom_crc16 := 0xc34d }
      = some (param_result.PARAM_OK,
          { param := sample_mac_changed.toBytes,
            eeprom_param := sample_mac_changed.toBytes,
            eeprom_crc16 := 0xc34d }) :=
  ⟨by decide, by decide, param_load_match _ (by decide)⟩

/-- C12 as amended: for every record `R` and every record `R1` whose checksum
differs from that of `R`, a ready medium whose record slot holds `R1` while its
checksum slot holds `calc_crc16` of `R` makes `param_load()` return
`PARAM_EEPROM_CRC_MISMATCH` and leave the working record equal to the image of
`default_param`, whatever the working record `w` was. -/
theorem param_load_detects_changed_checksum (R R1 w : Fin sizeof_param_t → u08)
    (h : calc_crc16 R1 ≠ calc_crc16 R) :
    ∃ c : u16, calc_crc16 R = some c ∧
      param_load true { param := w, eeprom_param := R1, eeprom_crc16 := c }
        = some (param_result.PARAM_EEPROM_CRC_MISMATCH,
            { param := default_param.toBytes, eeprom_param := R1, eeprom_crc16 := c }) := by
  obtain ⟨c, hc⟩ := calc_crc16_isSome R
  refine ⟨c, hc, ?_⟩
  exact param_load_mismatch { param := w, eeprom_param := R1, eeprom_crc16 := c }
    (by rw [← hc]; exact h)

set_option maxRecDepth 100000 in
/-- C12 as amended, at a sample medium: the record slot holds `default_param`
with `flow_ctl` switched off, the checksum slot the checksum of
`default_param`. -/
theorem param_load_detects_changed_checksum_witness :
    calc_crc16 sample_flow_off.toBytes ≠ calc_crc16 default_param.toBytes ∧
    ∃ c : u16, calc_crc16 default_param.toBytes = some c ∧
      param_load true
          { param := sample_flow_off.toBytes,
            eeprom_param := sample_flow_off.toBytes,
            eeprom_crc16 := c }
        = some (param_result.PARAM_EEPROM_CRC_MISMATCH,
            { param := default_param.toBytes,
              eeprom_param := sample_flow_off.toBytes,
              eeprom_crc16 := c }) :=
  ⟨by decide,
    param_load_detects_changed_checksum default_param.toBytes sample_flow_off.toBytes
      sample_flow_off.toBytes (by decide)⟩

/-- C13, init on a medium that is not ready: whatever the medium holds, a
consistent pair included, and whatever the working record was, `param_init()`
returns with the working record equal to the image of `default_param`, while
`param_load()` alone leaves the working record untouched. -/
theorem param_init_not_ready_resets (s : State) :
    param_init false s = some { s with param := default_param.toBytes } ∧
    param_load false s = some (param_result.PARAM_EEPROM_NOT_READY, s) :=
  ⟨param_init_false s, param_load_not_ready s⟩

/-- C14, init erases the start-up contents: for every medium state and readiness
and every two prior working records `w1` and `w2`, `param_init()` returns, and
returns the same state from both. -/
theorem param_init_forgets_working_record (ready : Bool) (s : State)
    (w1 w2 : Fin sizeof_param_t → u08) :
    (∃ s1 : State, param_init ready { s with param := w1 } = some s1) ∧
    param_init ready { s with param := w1 } = param_init ready { s with param := w2 } := by
  cases ready
  · exact ⟨⟨_, param_init_false _⟩, by rw [param_init_false, param_init_false]⟩
  · by_cases hc : calc_crc16 s.eeprom_param = some s.eeprom_crc16
    · have h1 := param_init_ready_match { s with param := w1 } hc
      have h2 := param_init_ready_match { s with param := w2 } hc
      exact ⟨⟨_, h1⟩, by rw [h1, h2]⟩
    · have h1 := param_init_ready_mismatch { s with param := w1 } hc
      have h2 := param_init_ready_mismatch { s with param := w2 } hc
      exact ⟨⟨_, h1⟩, by rw [h1, h2]⟩

/-- C15, readers never write the medium: `param_load()`, `param_reset()` and
`param_init()` return with the record slot and the checksum slot as they
were, on every path. -/
theorem readers_keep_medium (ready : Bool) (s : State) :
    (∃ r s1, param_load ready s = some (r, s1) ∧
      s1.eeprom_param = s.eeprom_param ∧ s1.eeprom_crc16 = s.eeprom_crc16) ∧
    (∃ s1, param_reset s = some s1 ∧
      s1.eeprom_param = s.eeprom_param ∧ s1.eeprom_crc16 = s.eeprom_crc16) ∧
    (∃ s1, param_init ready s = some s1 ∧
      s1.eeprom_param = s.eeprom_param ∧ s1.eeprom_crc16 = s.eeprom_crc16) := by
  refine ⟨?_, ⟨_, param_reset_eq s, rfl, rfl⟩, ?_⟩
  · cases ready
    · exact ⟨_, _, param_load_not_ready s, rfl, rfl⟩
    · by_cases hc : calc_crc16 s.eeprom_param = some s.eeprom_crc16
      · exact ⟨_, _, param_load_match s hc, rfl, rfl⟩
      · exact ⟨_, _, param_load_mismatch s hc, rfl, rfl⟩
  · cases ready
    · exact ⟨_, param_init_false s, rfl, rfl⟩
    · by_cases hc : calc_crc16 s.eeprom_param = some s.eeprom_crc16
      · exact ⟨_, param_init_ready_match s hc, rfl, rfl⟩
      · exact ⟨_, param_init_ready_mismatch s hc, rfl, rfl⟩

set_option maxRecDepth 100000 in
/-- C16, first boot on an erased medium: with the 22 byte record, the checksum
of 22 bytes of `0xFF` is `0x8f15`, not the `0xFFFF` of an erased checksum slot,
so on a ready erased medium `param_init()` leaves the working record equal to
the image of `default_param`, whatever it was. -/
theorem param_init_erased_medium (w : Fin sizeof_param_t → u08) :
    sizeof_param_t = 6 + 12 + 2 * 2 ∧
    calc_crc16 erased_block = some 0x8f15 ∧
    calc_crc16 erased_block ≠ some 0xffff ∧
    param_init true { param := w, eeprom_param := erased_block, eeprom_crc16 := 0xffff }
      = some { param := default_param.toBytes, eeprom_param := erased_block,
               eeprom_crc16 := 0xffff } :=
  ⟨rfl, by decide, by decide,
    param_init_ready_mismatch _ (show calc_crc16 erased_block ≠ some 0xffff by decide)⟩

/-- C17, the `u08` counter of `param_reset`: for a record of `n ≤ 255` bytes the
copy loop ends after exactly `n` passes (it returns with any fuel above `n`,
not with fuel `n` or less) and writes the offsets `0 .. n-1`, each exactly
once; the record of `sizeof(param_t)` bytes is such a record; for a record of
256 bytes or more the loop condition never fails, whatever the fuel. -/
theorem param_reset_counter_adequate (n : Nat) (inp mem : Fin n → u08) :
    (n ≤ 255 →
      (∀ fuel, n < fuel →
        param_reset_loop_log n inp fuel 0 0 0 mem [] = some (inp, List.range n) ∧
        param_reset_loop n inp fuel 0 0 0 mem = some inp) ∧
      (∀ fuel, fuel ≤ n → param_reset_loop n inp fuel 0 0 0 mem = none) ∧
      (List.range n).length = n ∧
      (∀ k, k < n → (List.range n).count k = 1)) ∧
    sizeof_param_t ≤ 255 ∧
    (256 ≤ n → ∀ fuel, param_reset_loop n inp fuel 0 0 0 mem = none) := by
  refine ⟨fun hn => ⟨fun fuel hf => ?_, fun fuel hf => ?_, List.length_range n, fun k hk => ?_⟩,
    by decide, fun hn fuel => ?_⟩
  · have hlog := param_reset_loop_log_eq n inp (by omega) fuel 0 mem [] (by omega) (by omega)
    have hmem := param_reset_loop_eq n inp (by omega) fuel 0 mem (by omega) (by omega)
    have hfun : (fun j : Fin n => if 0 ≤ j.val then inp j else mem j) = inp := by
      funext j
      simp
    rw [hfun] at hlog hmem
    rw [hlog, hmem, List.range_eq_range']
    simp
  · exact param_reset_loop_short n inp (by omega) fuel 0 mem (by omega) (by omega)
  · exact List.count_eq_one_of_mem (List.nodup_range n) (List.mem_range.mpr hk)
  · exact param_reset_loop_never n inp hn fuel 0 0 0 mem (by decide)

/-- C17 at sample sizes: on the 22 byte record the loop returns with fuel 23,
having written the offsets `0 .. 21` in turn, and not with fuel 22; on a 256
byte record it does not return with fuel 100000. -/
theorem param_reset_counter_adequate_witness :
    param_reset_loop_log sizeof_param_t default_param.toBytes 23 0 0 0 erased_block []
      = some (default_param.toBytes, List.range sizeof_param_t) ∧
    param_reset_loop sizeof_param_t default_param.toBytes 22 0 0 0 erased_block = none ∧
    param_reset_loop 256 (fun _ => 0) 100000 0 0 0 (fun _ => 0) = none :=
  ⟨(((param_reset_counter_adequate sizeof_param_t default_param.toBytes erased_block).1
      (by decide)).1 23 (by decide)).1,
    ((param_reset_counter_adequate sizeof_param_t default_param.toBytes erased_block).1
      (by decide)).2.1 22 (by decide),
    (param_reset_counter_adequate 256 (fun _ => 0) (fun _ => 0)).2.2 (by decide) 100000⟩

end Plipbox
